import Mathlib

/-!
Verification of the dicom-parser-rs incremental DICOM data-set parser.

Embedded source files:
- src/attribute.rs      (length_is_u32, Attribute::ele, Attribute::ile)
- src/dataset.rs        (full-buffering Parser with Callback, Control)
- src/parser/data_set.rs (DataSetParser driver, parse_full)

Byte streams are `List Nat`.  Rust panics (out-of-bounds slice indexing,
Option::unwrap on None) are modelled with `Option`: a read that would panic
yields `none`, and the machine step that would panic is flagged.
The helper modules `byte_parser` (le_u16 / le_u32) and `tag` (Tag) are not
under src/; they are modelled from the spec's binary-layout table
("All multi-byte integers are little-endian", tag = group,elem 2+2 bytes).
-/

namespace Dicom

/-- Modelled from the spec: `byte_parser::le_u16` is not under src/.  Reads a
little-endian 16-bit integer from the first two bytes; an out-of-bounds read
(Rust slice-index panic) is `none`. -/
def le_u16 (l : List Nat) : Option Nat :=
  match l.get? 0, l.get? 1 with
  | some b0, some b1 => some (b0 + 256 * b1)
  | _, _ => none

/-- Modelled from the spec: `byte_parser::le_u32` is not under src/.  Reads a
little-endian 32-bit integer from the first four bytes. -/
def le_u32 (l : List Nat) : Option Nat :=
  match l.get? 0, l.get? 1, l.get? 2, l.get? 3 with
  | some b0, some b1, some b2, some b3 =>
      some (b0 + 256 * b1 + 65536 * b2 + 16777216 * b3)
  | _, _, _, _ => none

/-- Tag: pair of 16-bit group/element identifiers (spec section 3; the `tag`
module is not under src/). -/
structure Tag where
  group : Nat
  element : Nat
deriving DecidableEq

/-- Modelled from the spec: `Tag::from_bytes` is not under src/.  The tag is
decoded from the first 4 bytes: group then element, each little-endian 16-bit. -/
def Tag.from_bytes (l : List Nat) : Option Tag :=
  match le_u16 l, le_u16 (l.drop 2) with
  | some g, some e => some ⟨g, e⟩
  | _, _ => none

/-- The six long-length value-representation codes of attribute.rs
`length_is_u32`, as a predicate on the two code bytes
(79='O', 66='B', 87='W', 83='S', 81='Q', 70='F', 85='U', 84='T', 78='N'). -/
def longCode (b0 b1 : Nat) : Bool :=
  decide ((b0 = 79 ∧ b1 = 66) ∨ (b0 = 79 ∧ b1 = 87) ∨ (b0 = 83 ∧ b1 = 81) ∨
          (b0 = 79 ∧ b1 = 70) ∨ (b0 = 85 ∧ b1 = 84) ∨ (b0 = 85 ∧ b1 = 78))

/-- attribute.rs `length_is_u32`: reads bytes[0] and bytes[1] of the given
window (a panic on a window shorter than 2 is `none`). -/
def length_is_u32 (l : List Nat) : Option Bool :=
  match l.get? 0, l.get? 1 with
  | some b0, some b1 => some (longCode b0 b1)
  | _, _ => none

/-- attribute.rs `Attribute`: decoded header. `vr` is the 2-byte code,
`data_position` is the payload start (header-relative as produced by
`ele`/`ile`; rewritten to an absolute stream offset by dataset.rs). -/
structure Attribute where
  tag : Tag
  vr : Nat × Nat
  length : Nat
  data_position : Nat
deriving DecidableEq

/-- attribute.rs `Attribute::ele`: explicit-encoding header decode.  Reads the
tag from bytes 0-3 and the VR code from bytes 4-5; if the code is a long-length
code the length is the 32-bit little-endian integer at bytes 8-11 and the
payload starts at offset 12, otherwise the length is the 16-bit little-endian
integer at bytes 6-7 and the payload starts at offset 8. -/
def Attribute.ele (bytes : List Nat) : Option Attribute :=
  match Tag.from_bytes bytes, bytes.get? 4, bytes.get? 5 with
  | some tag, some v0, some v1 =>
    match length_is_u32 (bytes.drop 4) with
    | some true =>
      match le_u32 (bytes.drop 8) with
      | some len => some ⟨tag, (v0, v1), len, 12⟩
      | none => none
    | some false =>
      match le_u16 (bytes.drop 6) with
      | some len => some ⟨tag, (v0, v1), len, 8⟩
      | none => none
    | none => none
  | _, _, _ => none

/-- attribute.rs `Attribute::ile`: implicit-encoding header decode.  The VR is
marked with the bytes of the real UN code (85='U', 78='N'); the length is the
32-bit little-endian integer at bytes 4-7 and the payload starts at offset 8. -/
def Attribute.ile (bytes : List Nat) : Option Attribute :=
  match Tag.from_bytes bytes, le_u32 (bytes.drop 4) with
  | some tag, some len => some ⟨tag, (85, 78), len, 8⟩
  | _, _ => none

/-- dataset.rs `Control`. -/
inductive Control
  | element
  | data
  | stop
deriving DecidableEq

/-- dataset.rs `Callback` trait: `element` receives a decoded header and picks
a Control, `data` receives payload bytes.  `σ` is the callback's own state. -/
structure Callback (σ : Type) where
  element : σ → Attribute → σ × Control
  data : σ → Attribute → List Nat → σ

/-- Ghost record of one Handler/Callback invocation. -/
inductive Event
  | header (a : Attribute) (c : Control)
  | data (a : Attribute) (d : List Nat)
deriving DecidableEq

/-- The attribute carried by an event. -/
def Event.attr : Event → Attribute
  | .header a _ => a
  | .data a _ => a

/-- The attributes of the header events of a trace, in order. -/
def headerAttrs (evs : List Event) : List Attribute :=
  evs.filterMap (fun e => match e with | .header a _ => some a | .data _ _ => none)

/-- dataset.rs `Parser<T>`: full-buffering machine state, plus a ghost trace
`events` of the callback invocations made so far.  The field `attr` embeds the
source field `attribute` (that word is a Lean keyword). -/
structure Parser (σ : Type) where
  cb : σ
  buffer : List Nat
  buffer_position : Nat
  data_position : Nat
  element_data_bytes_remaining : Nat
  state : Control
  attr : Option Attribute
  events : List Event

/-- dataset.rs `Parser::new`. -/
def Parser.new (s : σ) : Parser σ :=
  ⟨s, [], 0, 0, 0, .element, none, []⟩

/-- Outcome of one iteration of the dataset.rs parse loop: return from the
call, continue looping, or panic (carrying the state reached so far). -/
inductive StepOut (σ : Type)
  | ret (st : Parser σ)
  | cont (st : Parser σ)
  | panic (st : Parser σ)

/-- The machine state carried by a step outcome. -/
def StepOut.toState : StepOut σ → Parser σ
  | .ret st => st
  | .cont st => st
  | .panic st => st

/-- dataset.rs Parser::parse, lines 61-71: the header phase of one loop
iteration.  If at least 10 bytes remain, decode a header with `Attribute::ele`
(an out-of-bounds read panics), advance both position counters by the header
length, rewrite the attribute's `data_position` to the absolute stream offset
of its payload, remember the payload length, and ask the callback for a
Control; otherwise return from the parse call. -/
def headerPhase (C : Callback σ) (st : Parser σ) : StepOut σ :=
  if st.buffer.length - st.buffer_position ≥ 10 then
    match Attribute.ele (st.buffer.drop st.buffer_position) with
    | none => .panic st
    | some attr0 =>
      let dp := st.data_position + attr0.data_position
      let a : Attribute := { attr0 with data_position := dp }
      let r := C.element st.cb a
      .cont { st with
        cb := r.1,
        buffer_position := st.buffer_position + attr0.data_position,
        data_position := dp,
        element_data_bytes_remaining := attr0.length,
        state := r.2,
        attr := some a,
        events := st.events ++ [.header a r.2] }
  else .ret st

/-- dataset.rs Parser::parse, lines 42-59 followed by 61-71: one iteration of
the `while state != Stop` loop.  If payload bytes are pending, wait until the
whole payload is buffered (else return); when it is, deliver it to the data
callback exactly when the control state is Data (`attribute.unwrap()` panics
on None), and advance past it; then run the header phase. -/
def stepBody (C : Callback σ) (st : Parser σ) : StepOut σ :=
  if st.element_data_bytes_remaining > 0 then
    if st.buffer.length - st.buffer_position ≥ st.element_data_bytes_remaining then
      match st.state, st.attr with
      | .data, some a =>
        let d := (st.buffer.drop st.buffer_position).take st.element_data_bytes_remaining
        headerPhase C { st with
          cb := C.data st.cb a d,
          state := .element,
          events := st.events ++ [.data a d],
          buffer_position := st.buffer_position + st.element_data_bytes_remaining,
          data_position := st.data_position + st.element_data_bytes_remaining,
          element_data_bytes_remaining := 0 }
      | .data, none => .panic st
      | _, _ =>
        headerPhase C { st with
          buffer_position := st.buffer_position + st.element_data_bytes_remaining,
          data_position := st.data_position + st.element_data_bytes_remaining,
          element_data_bytes_remaining := 0 }
    else .ret st
  else headerPhase C st

/-- The dataset.rs parse loop.  The Bool flags a panic.  Fuel only bounds the
iteration count; `parse` supplies `buffer.length + 1`, which is sufficient
because every continuing iteration advances `buffer_position` by at least 8
while it stays at most `buffer.length`. -/
def runLoop (C : Callback σ) : Nat → Parser σ → Parser σ × Bool
  | 0, st => (st, false)
  | fuel + 1, st =>
    if st.state = .stop then (st, false)
    else
      match stepBody C st with
      | .ret st' => (st', false)
      | .panic st' => (st', true)
      | .cont st' => runLoop C fuel st'

/-- dataset.rs `Parser::parse`: append the chunk to the buffer and loop. -/
def Parser.parse (C : Callback σ) (st : Parser σ) (bytes : List Nat) : Parser σ × Bool :=
  let st1 : Parser σ := { st with buffer := st.buffer ++ bytes }
  runLoop C (st1.buffer.length + 1) st1

/-- Feed a list of chunks with successive parse calls, stopping at a panic
(a Rust panic unwinds, so later calls never happen). -/
def feedAll (C : Callback σ) : Parser σ → List (List Nat) → Parser σ × Bool
  | st, [] => (st, false)
  | st, c :: cs =>
    match Parser.parse C st c with
    | (st', false) => feedAll C st' cs
    | (st', true) => (st', true)

/-- Run a fresh dataset.rs parser over a chunk partition of a stream. -/
def runChunks (C : Callback σ) (s0 : σ) (chunks : List (List Nat)) : Parser σ × Bool :=
  feedAll C (Parser.new s0) chunks

/-- parser/data_set.rs `ParseState`: the four-member result state of the
resumable parser protocol.  The source variant `Partial` is embedded as
`partialRes`. -/
inductive ParseState
  | cancelled
  | incomplete
  | partialRes
  | completed
deriving DecidableEq

/-- Modelled from the spec: the `handler` module is not under src/.  Spec
section 6: `on_header(Attribute) -> Control` (here `element`) and
`on_data(Attribute, byte slice)` (here `data`), over handler state `σ`. -/
structure Handler (σ : Type) where
  element : σ → Attribute → σ × Control
  data : σ → Attribute → List Nat → σ

/-- Modelled from the spec: the sub-parsers driven by DataSetParser are not
under src/ (src only constructs a fieldless `AttributeParser`).  Spec section 9
asks for a closed tagged-variant type covering the "awaiting header" state
(`attributeParser`, fieldless as in src) and the "forwarding payload"
continuation (`dataParser`, owning the decoded header, the count of payload
bytes still to consume, and whether they are delivered to the Handler). -/
inductive SubParser
  | attributeParser
  | dataParser (a : Attribute) (remaining : Nat) (deliver : Bool)
deriving DecidableEq

/-- parser/data_set.rs `ParseResult<T>`: bytes consumed this call, result
state, optional continuation sub-parser. -/
structure ParseResult where
  bytes_consumed : Nat
  state : ParseState
  parser : Option SubParser
deriving DecidableEq

/-- parser/data_set.rs `ParseResult::cancelled`. -/
def ParseResult.cancelled (n : Nat) : ParseResult := ⟨n, .cancelled, none⟩

/-- parser/data_set.rs `ParseResult::incomplete`. -/
def ParseResult.incomplete (n : Nat) : ParseResult := ⟨n, .incomplete, none⟩

/-- parser/data_set.rs `ParseResult::completed`. -/
def ParseResult.completed (n : Nat) : ParseResult := ⟨n, .completed, none⟩

/-- parser/data_set.rs `ParseResult::partial` (continuation present). -/
def ParseResult.partialRes (n : Nat) (p : SubParser) : ParseResult :=
  ⟨n, .partialRes, some p⟩

/-- Modelled from the spec: the sub-parser step (`AttributeParser::parse` and
the payload forwarder are not under src/), explicit-little-endian encoding.
Spec sections 4.1-4.3: the header decoder reports `Incomplete` consuming
nothing until the window holds the whole header (8 bytes, or 12 for a
long-length VR), then decodes the Attribute in one step and invokes the
Handler's header callback once; `Stop` cancels; `Element` skips the payload;
`Data` delivers whatever payload bytes are available and suspends with a
`Partial` continuation for the rest (spec section 4.2: large payloads are not
buffered whole).  Returns (handler state, ParseResult, ghost events). -/
def SubParser.parse (H : Handler σ) :
    SubParser → σ → List Nat → σ × ParseResult × List Event
  | .attributeParser, s, w =>
    if w.length < 8 then (s, ParseResult.incomplete 0, [])
    else
      if longCode (w.getD 4 0) (w.getD 5 0) ∧ w.length < 12 then
        (s, ParseResult.incomplete 0, [])
      else
        match Attribute.ele w with
        | none => (s, ParseResult.incomplete 0, [])
        | some a =>
          let hlen := a.data_position
          let r := H.element s a
          let avail := w.length - hlen
          match r.2 with
          | .stop => (r.1, ParseResult.cancelled hlen, [.header a .stop])
          | .element =>
            if a.length ≤ avail then
              (r.1, ParseResult.completed (hlen + a.length), [.header a .element])
            else
              (r.1, ParseResult.partialRes w.length (.dataParser a (a.length - avail) false),
               [.header a .element])
          | .data =>
            if a.length ≤ avail then
              let frag := (w.drop hlen).take a.length
              if a.length = 0 then
                (r.1, ParseResult.completed hlen, [.header a .data])
              else
                (H.data r.1 a frag, ParseResult.completed (hlen + a.length),
                 [.header a .data, .data a frag])
            else
              let frag := w.drop hlen
              if frag.isEmpty then
                (r.1, ParseResult.partialRes w.length (.dataParser a (a.length - avail) true),
                 [.header a .data])
              else
                (H.data r.1 a frag,
                 ParseResult.partialRes w.length (.dataParser a (a.length - avail) true),
                 [.header a .data, .data a frag])
  | .dataParser a rem deliver, s, w =>
    if rem ≤ w.length then
      let frag := w.take rem
      if deliver ∧ rem ≠ 0 then
        (H.data s a frag, ParseResult.completed rem, [.data a frag])
      else
        (s, ParseResult.completed rem, [])
    else
      if deliver ∧ ¬ w.isEmpty then
        (H.data s a w, ParseResult.partialRes w.length (.dataParser a (rem - w.length) deliver),
         [.data a w])
      else
        (s, ParseResult.partialRes w.length (.dataParser a (rem - w.length) deliver), [])

/-- parser/data_set.rs `DataSetParser<T>`: the Driver.  `parser = none` is the
terminal post-cancellation state. -/
structure DataSetParser where
  parser : Option SubParser
  total_bytes_consumed : Nat
deriving DecidableEq

/-- parser/data_set.rs `DataSetParser::default`: fresh AttributeParser, zero
bytes consumed. -/
def DataSetParser.default : DataSetParser := ⟨some .attributeParser, 0⟩

/-- Driver call outcome: `Ok(ParseResult)` with the updated driver and handler
state, or the protocol-misuse error `Err(())` (carrying the handler state,
which it never touched on that path). -/
inductive DriveOut (σ : Type)
  | ok (d : DataSetParser) (s : σ) (r : ParseResult)
  | err (s : σ)
deriving DecidableEq

/-- parser/data_set.rs `DataSetParser::parse`, lines 29-70: loop while
unconsumed bytes remain; with no sub-parser fail with `Err(())`; otherwise run
the sub-parser, accumulate its consumed bytes, and react to its state:
Cancelled drops the sub-parser and returns, Incomplete returns keeping the
sub-parser, Partial installs the returned continuation and keeps looping,
Completed installs a fresh AttributeParser and keeps looping.  Fuel bounds the
loop (none = fuel exhausted; `DataSetParser.parse` supplies enough).  The
List Event is the ghost trace of Handler invocations of the call. -/
def driveLoop (H : Handler σ) :
    Nat → DataSetParser → σ → List Nat → Nat → Option (List Event × DriveOut σ)
  | 0, _, _, _, _ => none
  | fuel + 1, d, s, remaining, acc =>
    match remaining with
    | [] => some ([], .ok d s (ParseResult.completed acc))
    | _ :: _ =>
      match d.parser with
      | none => some ([], .err s)
      | some p =>
        match SubParser.parse H p s remaining with
        | (s1, res, ev) =>
          let d1 : DataSetParser :=
            { d with total_bytes_consumed := d.total_bytes_consumed + res.bytes_consumed }
          let remaining1 := remaining.drop res.bytes_consumed
          let acc1 := acc + res.bytes_consumed
          match res.state with
          | .cancelled =>
            some (ev, .ok { d1 with parser := none } s1 (ParseResult.cancelled acc1))
          | .incomplete =>
            some (ev, .ok d1 s1 (ParseResult.incomplete acc1))
          | .partialRes =>
            match driveLoop H fuel { d1 with parser := res.parser } s1 remaining1 acc1 with
            | some (ev2, out) => some (ev ++ ev2, out)
            | none => none
          | .completed =>
            match driveLoop H fuel { d1 with parser := some .attributeParser } s1 remaining1 acc1 with
            | some (ev2, out) => some (ev ++ ev2, out)
            | none => none

/-- parser/data_set.rs `DataSetParser::parse` entry point.  The fuel
`2 * bytes.length + 2` is sufficient for the sub-parser chain: every pair of
consecutive loop iterations consumes at least one byte. -/
def DataSetParser.parse (H : Handler σ) (d : DataSetParser) (s : σ) (bytes : List Nat) :
    Option (List Event × DriveOut σ) :=
  driveLoop H (2 * bytes.length + 2) d s bytes 0

/-- parser/data_set.rs `ParseError`: empty error struct for parse_full. -/
structure ParseError where
deriving DecidableEq

/-- parser/data_set.rs `parse_full`, lines 76-90: construct a fresh
DataSetParser, drive it once, and map the result: Cancelled to Ok((consumed,
true)), Incomplete and Partial to Err(ParseError), Completed to Ok((consumed,
false)), and a sub-parser Err(()) to Err(ParseError).  The handler state and
ghost events are carried alongside. -/
def parse_full (H : Handler σ) (s : σ) (bytes : List Nat) :
    Option (List Event × Except ParseError (Nat × Bool) × σ) :=
  match DataSetParser.parse H DataSetParser.default s bytes with
  | none => none
  | some (ev, .ok _ s1 r) =>
    match r.state with
    | .cancelled => some (ev, .ok (r.bytes_consumed, true), s1)
    | .incomplete => some (ev, .error ⟨⟩, s1)
    | .partialRes => some (ev, .error ⟨⟩, s1)
    | .completed => some (ev, .ok (r.bytes_consumed, false), s1)
  | some (ev, .err s1) => some (ev, .error ⟨⟩, s1)

/-! Specification-side readings of the binary layout (spec section 6): the
little-endian 16- and 32-bit integers found at a given byte offset.  These are
used only to state claims, to be compared with what the source decoders do. -/

/-- The little-endian 16-bit integer at offset `i` (spec layout table). -/
def le16at (l : List Nat) (i : Nat) : Nat :=
  l.getD i 0 + 256 * l.getD (i + 1) 0

/-- The little-endian 32-bit integer at offset `i` (spec layout table). -/
def le32at (l : List Nat) (i : Nat) : Nat :=
  l.getD i 0 + 256 * l.getD (i + 1) 0 + 65536 * l.getD (i + 2) 0 +
    16777216 * l.getD (i + 3) 0

/-! Concrete fixtures used by witnesses and counterexamples. -/

/-- A callback that always asks for the payload (Control::Data). -/
def CbData : Callback Unit := ⟨fun _ _ => ((), .data), fun _ _ _ => ()⟩

/-- A callback that always skips the payload (Control::Element). -/
def CbElem : Callback Unit := ⟨fun _ _ => ((), .element), fun _ _ _ => ()⟩

/-- A handler that always asks for the payload (Control::Data). -/
def HData : Handler Unit := ⟨fun _ _ => ((), .data), fun _ _ _ => ()⟩

/-- A handler that always stops (Control::Stop). -/
def HStop : Handler Unit := ⟨fun _ _ => ((), .stop), fun _ _ _ => ()⟩

/-- One complete explicit-little-endian attribute with long-length VR OB:
12-byte header (tag (2,1), VR "OB", length 2) + 2 payload bytes. -/
def streamOB : List Nat := [2, 0, 1, 0, 79, 66, 0, 0, 2, 0, 0, 0, 0, 1]

/-- The attribute encoded by `streamOB`, with its absolute payload offset. -/
def attrOB : Attribute := ⟨⟨2, 1⟩, (79, 66), 2, 12⟩

/-- A 10-byte chunk that is a complete short-VR window by count but carries
the long-length VR OW, so its header needs 12 bytes: tag (2,1), VR "OW". -/
def chunkOW : List Nat := [2, 0, 1, 0, 79, 87, 0, 0, 0, 0]

/-- One complete 8-byte explicit attribute: tag (8,8), VR "AE", length 0. -/
def streamAE : List Nat := [8, 0, 8, 0, 65, 69, 0, 0]

/-- The attribute encoded by `streamAE` (payload offset as decoded by ele). -/
def attrAE : Attribute := ⟨⟨8, 8⟩, (65, 69), 0, 8⟩

/-- An attribute `a` is decodable at an absolute position of `buf`: some
header start `p` exists from which `Attribute.ele` reproduces the tag, VR and
length of `a` with header length `k`, and `a.data_position` is exactly the
absolute offset `p + k` at which the payload begins. -/
def DecAt (buf : List Nat) (a : Attribute) : Prop :=
  ∃ p k, Attribute.ele (buf.drop p) = some ⟨a.tag, a.vr, a.length, k⟩ ∧
    a.data_position = p + k

/-- Attribute `a`'s payload (at its absolute `data_position`) ends at or
before attribute `b`'s payload offset: `b`'s record starts past `a`'s
payload, so the payload bytes were consumed, not re-parsed. -/
def beforePayload (a b : Attribute) : Prop :=
  a.data_position + a.length ≤ b.data_position

/-- Machine invariant of the dataset.rs Parser, preserved by every loop
iteration, every parse-call boundary and every panic:
- the read position equals the absolute stream position (the buffer is the
  whole stream seen so far and is never drained);
- the read position stays within the buffer;
- every attribute handed to a callback so far has its payload offset at or
  below the current stream position, and so does the pending attribute;
- in Data state a pending attribute exists (the source unwraps it) and its
  header callback did not answer Element;
- an attribute whose header callback answered Element never received a data
  callback;
- every announced payload is fully accounted for by the current position plus
  the pending byte count, and header events are in stream order with
  non-overlapping payloads;
- every event attribute and the pending attribute are decodable from the
  buffer at their absolute positions (`DecAt`). -/
structure Inv (st : Parser σ) : Prop where
  bpdp : st.buffer_position = st.data_position
  bple : st.buffer_position ≤ st.buffer.length
  evdp : ∀ e ∈ st.events, (Event.attr e).data_position ≤ st.data_position
  attdp : ∀ a, st.attr = some a → a.data_position ≤ st.data_position
  dataAttr : st.state = .data → st.attr.isSome
  noElemHdr : ∀ a, st.state = .data → st.attr = some a →
    Event.header a .element ∉ st.events
  elemNoData : ∀ a, Event.header a .element ∈ st.events →
    ∀ d, Event.data a d ∉ st.events
  hdrBound : ∀ a c, Event.header a c ∈ st.events →
    a.data_position + a.length ≤ st.data_position + st.element_data_bytes_remaining
  hdrPair : List.Pairwise beforePayload (headerAttrs st.events)
  decode : ∀ e ∈ st.events, DecAt st.buffer (Event.attr e)
  attdec : ∀ a, st.attr = some a → DecAt st.buffer a

/-! ### Lemmas about the byte-level readers -/

lemma get?_getD (l : List Nat) (i : Nat) (h : i < l.length) :
    l.get? i = some (l.getD i 0) := by
  rw [List.get?_eq_getElem?, List.getElem?_eq_getElem h, List.getD_eq_getElem?_getD,
    List.getElem?_eq_getElem h]
  rfl

lemma get?_some_lt {l : List Nat} {i b : Nat} (h : l.get? i = some b) : i < l.length := by
  rw [List.get?_eq_getElem?] at h
  exact (List.getElem?_eq_some.mp h).1

lemma get?_append_some {l e : List Nat} {i b : Nat} (h : l.get? i = some b) :
    (l ++ e).get? i = some b := by
  rw [List.get?_append (get?_some_lt h)]
  exact h

lemma le_u16_getD (l : List Nat) (h : 2 ≤ l.length) :
    le_u16 l = some (le16at l 0) := by
  rw [le_u16, get?_getD l 0 (by omega), get?_getD l 1 (by omega)]
  rfl

lemma le_u32_getD (l : List Nat) (h : 4 ≤ l.length) :
    le_u32 l = some (le32at l 0) := by
  rw [le_u32, get?_getD l 0 (by omega), get?_getD l 1 (by omega),
    get?_getD l 2 (by omega), get?_getD l 3 (by omega)]
  rfl

lemma le_u16_len {l : List Nat} {n : Nat} (h : le_u16 l = some n) : 2 ≤ l.length := by
  rw [le_u16] at h
  cases h0 : l.get? 0 with
  | none => rw [h0] at h; exact absurd h (by simp)
  | some b0 =>
    cases h1 : l.get? 1 with
    | none => rw [h0, h1] at h; exact absurd h (by simp)
    | some b1 => exact get?_some_lt h1

lemma le_u32_len {l : List Nat} {n : Nat} (h : le_u32 l = some n) : 4 ≤ l.length := by
  rw [le_u32] at h
  cases h0 : l.get? 0 with
  | none => rw [h0] at h; exact absurd h (by simp)
  | some b0 =>
    cases h1 : l.get? 1 with
    | none => rw [h0, h1] at h; exact absurd h (by simp)
    | some b1 =>
      cases h2 : l.get? 2 with
      | none => rw [h0, h1, h2] at h; exact absurd h (by simp)
      | some b2 =>
        cases h3 : l.get? 3 with
        | none => rw [h0, h1, h2, h3] at h; exact absurd h (by simp)
        | some b3 => exact get?_some_lt h3

lemma le_u16_append {l e : List Nat} {n : Nat} (h : le_u16 l = some n) :
    le_u16 (l ++ e) = some n := by
  rw [le_u16] at h ⊢
  cases h0 : l.get? 0 with
  | none => rw [h0] at h; exact absurd h (by simp)
  | some b0 =>
    cases h1 : l.get? 1 with
    | none => rw [h0, h1] at h; exact absurd h (by simp)
    | some b1 =>
      rw [h0, h1] at h
      rw [get?_append_some h0, get?_append_some h1]
      exact h

lemma le_u32_append {l e : List Nat} {n : Nat} (h : le_u32 l = some n) :
    le_u32 (l ++ e) = some n := by
  rw [le_u32] at h ⊢
  cases h0 : l.get? 0 with
  | none => rw [h0] at h; exact absurd h (by simp)
  | some b0 =>
    cases h1 : l.get? 1 with
    | none => rw [h0, h1] at h; exact absurd h (by simp)
    | some b1 =>
      cases h2 : l.get? 2 with
      | none => rw [h0, h1, h2] at h; exact absurd h (by simp)
      | some b2 =>
        cases h3 : l.get? 3 with
        | none => rw [h0, h1, h2, h3] at h; exact absurd h (by simp)
        | some b3 =>
          rw [h0, h1, h2, h3] at h
          rw [get?_append_some h0, get?_append_some h1, get?_append_some h2,
            get?_append_some h3]
          exact h

lemma drop_append_of_get?_some {l e : List Nat} {i j b : Nat}
    (h : l.get? j = some b) (hij : i ≤ j) : (l ++ e).drop i = l.drop i ++ e :=
  List.drop_append_of_le_length (le_of_lt (lt_of_le_of_lt hij (get?_some_lt h)))

/-! ### Lemmas about the header decoders -/

lemma tag_from_bytes_getD (l : List Nat) (h : 4 ≤ l.length) :
    Tag.from_bytes l = some ⟨le16at l 0, le16at l 2⟩ := by
  rw [Tag.from_bytes, le_u16_getD l (by omega),
    le_u16_getD (l.drop 2) (by simp; omega)]
  simp [le16at, List.getD_eq_getElem?_getD]

lemma length_is_u32_getD (l : List Nat) (h : 2 ≤ l.length) :
    length_is_u32 l = some (longCode (l.getD 0 0) (l.getD 1 0)) := by
  rw [length_is_u32, get?_getD l 0 (by omega), get?_getD l 1 (by omega)]

lemma getD_drop (l : List Nat) (i j : Nat) : (l.drop i).getD j 0 = l.getD (i + j) 0 := by
  simp [List.getD_eq_getElem?_getD]

/-- Explicit decode, long-length branch: with at least 12 bytes and a
long-length VR code at offsets 4-5, `ele` yields the little-endian 32-bit
length at offsets 8-11 and payload offset 12. -/
lemma ele_long (l : List Nat) (h12 : 12 ≤ l.length)
    (hvr : longCode (l.getD 4 0) (l.getD 5 0) = true) :
    Attribute.ele l =
      some ⟨⟨le16at l 0, le16at l 2⟩, (l.getD 4 0, l.getD 5 0), le32at l 8, 12⟩ := by
  rw [Attribute.ele, tag_from_bytes_getD l (by omega), get?_getD l 4 (by omega),
    get?_getD l 5 (by omega), length_is_u32_getD (l.drop 4) (by simp; omega)]
  rw [getD_drop, getD_drop]
  simp only [List.getD_eq_getElem?_getD] at hvr
  norm_num
  rw [hvr]
  rw [le_u32_getD (l.drop 8) (by simp; omega)]
  simp [le32at, getD_drop]

/-- Explicit decode, short-length branch: with at least 8 bytes and any other
VR code at offsets 4-5 (malformed codes included), `ele` yields the
little-endian 16-bit length at offsets 6-7 and payload offset 8. -/
lemma ele_short (l : List Nat) (h8 : 8 ≤ l.length)
    (hvr : longCode (l.getD 4 0) (l.getD 5 0) = false) :
    Attribute.ele l =
      some ⟨⟨le16at l 0, le16at l 2⟩, (l.getD 4 0, l.getD 5 0), le16at l 6, 8⟩ := by
  rw [Attribute.ele, tag_from_bytes_getD l (by omega), get?_getD l 4 (by omega),
    get?_getD l 5 (by omega), length_is_u32_getD (l.drop 4) (by simp; omega)]
  rw [getD_drop, getD_drop]
  simp only [List.getD_eq_getElem?_getD] at hvr
  norm_num
  rw [hvr]
  rw [le_u16_getD (l.drop 6) (by simp; omega)]
  simp [le16at, getD_drop]

lemma getD_append_left {l e : List Nat} {i : Nat} (h : i < l.length) :
    (l ++ e).getD i 0 = l.getD i 0 := by
  simp [List.getD_eq_getElem?_getD, List.getElem?_append_left h]

lemma le16at_append {l e : List Nat} {i : Nat} (h : i + 2 ≤ l.length) :
    le16at (l ++ e) i = le16at l i := by
  rw [le16at, le16at, getD_append_left (by omega), getD_append_left (by omega)]

lemma le32at_append {l e : List Nat} {i : Nat} (h : i + 4 ≤ l.length) :
    le32at (l ++ e) i = le32at l i := by
  rw [le32at, le32at, getD_append_left (by omega), getD_append_left (by omega),
    getD_append_left (by omega), getD_append_left (by omega)]

lemma le16at_drop (l : List Nat) (i : Nat) : le16at (l.drop i) 0 = le16at l i := by
  simp [le16at, getD_drop]

lemma le32at_drop (l : List Nat) (i : Nat) : le32at (l.drop i) 0 = le32at l i := by
  simp [le32at, getD_drop]

/-- Inversion for `Attribute.ele`: a successful decode is exactly the long or
the short branch, with the field values read at the spec's offsets. -/
lemma ele_inv {l : List Nat} {a : Attribute} (h : Attribute.ele l = some a) :
    (12 ≤ l.length ∧ longCode (l.getD 4 0) (l.getD 5 0) = true ∧
      a = ⟨⟨le16at l 0, le16at l 2⟩, (l.getD 4 0, l.getD 5 0), le32at l 8, 12⟩) ∨
    (8 ≤ l.length ∧ longCode (l.getD 4 0) (l.getD 5 0) = false ∧
      a = ⟨⟨le16at l 0, le16at l 2⟩, (l.getD 4 0, l.getD 5 0), le16at l 6, 8⟩) := by
  rw [Attribute.ele] at h
  cases hT : Tag.from_bytes l with
  | none => rw [hT] at h; exact absurd h (by simp)
  | some tag =>
  cases h4 : l.get? 4 with
  | none => rw [hT, h4] at h; exact absurd h (by simp)
  | some v0 =>
  cases h5 : l.get? 5 with
  | none => rw [hT, h4, h5] at h; exact absurd h (by simp)
  | some v1 =>
  rw [hT, h4, h5] at h
  cases hL : length_is_u32 (l.drop 4) with
  | none => rw [hL] at h; exact absurd h (by simp)
  | some b =>
  rw [hL] at h
  have h6 : 6 ≤ l.length := get?_some_lt h5
  have hbval : b = longCode (l.getD 4 0) (l.getD 5 0) := by
    have := length_is_u32_getD (l.drop 4) (by simp; omega)
    rw [hL] at this
    have := Option.some.inj this
    rw [this, getD_drop, getD_drop]
  cases b with
  | true =>
    simp only at h
    cases hU : le_u32 (l.drop 8) with
    | none => rw [hU] at h; exact absurd h (by simp)
    | some len =>
    rw [hU] at h
    have h12 : 12 ≤ l.length := by
      have := le_u32_len hU
      simp at this
      omega
    have htag : tag = ⟨le16at l 0, le16at l 2⟩ := by
      have := tag_from_bytes_getD (l) (by omega)
      rw [hT] at this
      exact Option.some.inj this
    have hv0 : v0 = l.getD 4 0 := by
      have := get?_getD l 4 (by omega)
      rw [h4] at this
      exact Option.some.inj this
    have hv1 : v1 = l.getD 5 0 := by
      have := get?_getD l 5 (by omega)
      rw [h5] at this
      exact Option.some.inj this
    have hlen : len = le32at l 8 := by
      have := le_u32_getD (l.drop 8) (by simp; omega)
      rw [hU, le32at_drop] at this
      exact Option.some.inj this
    left
    refine ⟨h12, hbval.symm, ?_⟩
    rw [← Option.some.inj h, htag, hv0, hv1, hlen]
  | false =>
    simp only at h
    cases hU : le_u16 (l.drop 6) with
    | none => rw [hU] at h; exact absurd h (by simp)
    | some len =>
    rw [hU] at h
    have h8 : 8 ≤ l.length := by
      have := le_u16_len hU
      simp at this
      omega
    have htag : tag = ⟨le16at l 0, le16at l 2⟩ := by
      have := tag_from_bytes_getD (l) (by omega)
      rw [hT] at this
      exact Option.some.inj this
    have hv0 : v0 = l.getD 4 0 := by
      have := get?_getD l 4 (by omega)
      rw [h4] at this
      exact Option.some.inj this
    have hv1 : v1 = l.getD 5 0 := by
      have := get?_getD l 5 (by omega)
      rw [h5] at this
      exact Option.some.inj this
    have hlen : len = le16at l 6 := by
      have := le_u16_getD (l.drop 6) (by simp; omega)
      rw [hU, le16at_drop] at this
      exact Option.some.inj this
    right
    refine ⟨h8, hbval.symm, ?_⟩
    rw [← Option.some.inj h, htag, hv0, hv1, hlen]

/-- A successful `ele` decode needs at least 8 bytes and consumes a header of
8 or 12 bytes, never more than the window. -/
lemma ele_bounds {l : List Nat} {a : Attribute} (h : Attribute.ele l = some a) :
    8 ≤ a.data_position ∧ a.data_position ≤ l.length := by
  rcases ele_inv h with ⟨h12, _, ha⟩ | ⟨h8, _, ha⟩ <;> rw [ha] <;> simp <;> omega

/-- Appending bytes to the window does not change a successful `ele` decode. -/
lemma ele_append {l e : List Nat} {a : Attribute} (h : Attribute.ele l = some a) :
    Attribute.ele (l ++ e) = some a := by
  rcases ele_inv h with ⟨h12, hvr, ha⟩ | ⟨h8, hvr, ha⟩
  · rw [ele_long (l ++ e) (by simp; omega)
      (by rw [getD_append_left (by omega), getD_append_left (by omega)]; exact hvr)]
    rw [ha, le16at_append (by omega), le16at_append (by omega), le32at_append (by omega),
      getD_append_left (by omega), getD_append_left (by omega)]
  · rw [ele_short (l ++ e) (by simp; omega)
      (by rw [getD_append_left (by omega), getD_append_left (by omega)]; exact hvr)]
    rw [ha, le16at_append (by omega), le16at_append (by omega), le16at_append (by omega),
      getD_append_left (by omega), getD_append_left (by omega)]

/-- Implicit decode: with at least 8 bytes, `ile` yields the UN code bytes,
the little-endian 32-bit length at offsets 4-7 and payload offset 8. -/
lemma ile_getD (l : List Nat) (h8 : 8 ≤ l.length) :
    Attribute.ile l = some ⟨⟨le16at l 0, le16at l 2⟩, (85, 78), le32at l 4, 8⟩ := by
  rw [Attribute.ile, tag_from_bytes_getD l (by omega),
    le_u32_getD (l.drop 4) (by simp; omega), le32at_drop]

/-- Every attribute produced by `ile` carries the UN code bytes in `vr`. -/
lemma ile_vr {l : List Nat} {a : Attribute} (h : Attribute.ile l = some a) :
    a.vr = (85, 78) := by
  rw [Attribute.ile] at h
  cases hT : Tag.from_bytes l with
  | none => rw [hT] at h; exact absurd h (by simp)
  | some tag =>
  cases hU : le_u32 (l.drop 4) with
  | none => rw [hT, hU] at h; exact absurd h (by simp)
  | some len =>
    rw [hT, hU] at h
    rw [← Option.some.inj h]

/-- Every attribute produced by `ele` carries the window's bytes 4-5 in `vr`. -/
lemma ele_vr {l : List Nat} {a : Attribute} (h : Attribute.ele l = some a) :
    a.vr = (l.getD 4 0, l.getD 5 0) := by
  rcases ele_inv h with ⟨_, _, ha⟩ | ⟨_, _, ha⟩ <;> rw [ha]

/-! ### Claim theorems, part 1: the header decoders -/

/-- Claim C2 (confirmed): for every byte window decoded by `Attribute.ele`,
if the 2-byte VR code at offsets 4-5 is one of OB, OW, SQ, OF, UT, UN the
payload length is the little-endian 32-bit integer at offsets 8-11 and the
payload starts at header offset 12; for every other 2-byte code — malformed
or unrecognized codes included, decoded deterministically and never
rejected — the payload length is the little-endian 16-bit integer at offsets
6-7 and the payload starts at header offset 8. -/
theorem claimC2_length_width (l : List Nat) :
    (longCode (l.getD 4 0) (l.getD 5 0) = true → 12 ≤ l.length →
      Attribute.ele l =
        some ⟨⟨le16at l 0, le16at l 2⟩, (l.getD 4 0, l.getD 5 0), le32at l 8, 12⟩) ∧
    (longCode (l.getD 4 0) (l.getD 5 0) = false → 8 ≤ l.length →
      Attribute.ele l =
        some ⟨⟨le16at l 0, le16at l 2⟩, (l.getD 4 0, l.getD 5 0), le16at l 6, 8⟩) :=
  ⟨fun hvr h12 => ele_long l h12 hvr, fun hvr h8 => ele_short l h8 hvr⟩

/-- Witness for C2: the spec's own long-length example (VR "OB", tag (2,1),
length 2, payload offset 12) and its short-length example (VR "CS",
tag (8,8), length 22, payload offset 8). -/
theorem claimC2_witness :
    Attribute.ele [2, 0, 1, 0, 79, 66, 0, 0, 2, 0, 0, 0] =
      some ⟨⟨2, 1⟩, (79, 66), 2, 12⟩ ∧
    Attribute.ele [8, 0, 8, 0, 67, 83, 22, 0] =
      some ⟨⟨8, 8⟩, (67, 83), 22, 8⟩ :=
  ⟨((claimC2_length_width [2, 0, 1, 0, 79, 66, 0, 0, 2, 0, 0, 0]).1
      (by decide) (by decide)).trans (by decide),
   ((claimC2_length_width [8, 0, 8, 0, 67, 83, 22, 0]).2
      (by decide) (by decide)).trans (by decide)⟩

/-- Claim C9 (confirmed): for every window of at least 8 bytes `Attribute.ile`
returns an attribute whose `vr` is the two ASCII bytes of the real UN code
(85, 78), with the little-endian 32-bit length from offsets 4-7 and payload
offset 8; consequently its `vr` field is identical to that of any attribute
decoded by `Attribute.ele` from an explicit window declaring VR "UN". -/
theorem claimC9_implicit_un (l : List Nat) :
    (8 ≤ l.length →
      Attribute.ile l = some ⟨⟨le16at l 0, le16at l 2⟩, (85, 78), le32at l 4, 8⟩) ∧
    (∀ (m : List Nat) (a b : Attribute), Attribute.ile l = some b →
      Attribute.ele m = some a → m.getD 4 0 = 85 → m.getD 5 0 = 78 → a.vr = b.vr) := by
  constructor
  · exact fun h8 => ile_getD l h8
  · intro m a b hb ha h4 h5
    rw [ele_vr ha, h4, h5, ile_vr hb]

/-- Witness for C9: the spec's implicit-decode example (tag (8,8), length 22,
payload offset 8, VR marked UN), and the `vr` of that implicit decode agrees
with the `vr` of an explicit decode whose declared VR is "UN". -/
theorem claimC9_witness :
    Attribute.ile [8, 0, 8, 0, 22, 0, 0, 0] = some ⟨⟨8, 8⟩, (85, 78), 22, 8⟩ ∧
    (⟨⟨8, 8⟩, (85, 78), 4, 12⟩ : Attribute).vr = (⟨⟨8, 8⟩, (85, 78), 22, 8⟩ : Attribute).vr :=
  ⟨((claimC9_implicit_un [8, 0, 8, 0, 22, 0, 0, 0]).1 (by decide)).trans (by decide),
   (claimC9_implicit_un [8, 0, 8, 0, 22, 0, 0, 0]).2
     [8, 0, 8, 0, 85, 78, 0, 0, 4, 0, 0, 0] _ _ (by decide) (by decide)
     (by decide) (by decide)⟩

/-- Claim C3 (code bug): the claim says dataset.rs Parser::parse invokes the
header decoder only on a window holding the entire header (12 bytes for a
long-length VR) and therefore never reads out of bounds.  The code guards the
header phase with `remaining >= 10` only: on a single 10-byte chunk whose VR
code is the long-length "OW", `Attribute::ele` reads bytes 10 and 11 of a
10-byte window — an out-of-bounds slice index (a panic, here the panic
flag) — before any callback is invoked. -/
theorem claimC3_eval :
    (runChunks CbElem () [chunkOW]).2 = true ∧
    (runChunks CbElem () [chunkOW]).1.events = [] := by
  constructor <;> rfl

/-- Claim C1 (code bug): split-invariance fails for dataset.rs Parser::parse.
For the complete one-attribute stream `streamOB` (12-byte OB header + 2
payload bytes), a single call consumes all 14 bytes and produces the header
and payload callbacks; the partition into its first 10 bytes and its last 4
bytes panics on the first call (out-of-bounds header read behind the
`remaining >= 10` guard) with no callback at all and no byte consumed, so the
callback sequences differ and the bytes consumed do not sum to `len(S)`. -/
theorem claimC1_eval :
    (runChunks CbData () [streamOB]).2 = false ∧
    (runChunks CbData () [streamOB]).1.events =
      [.header attrOB .data, .data attrOB [0, 1]] ∧
    (runChunks CbData () [streamOB]).1.buffer_position = streamOB.length ∧
    (runChunks CbData () [streamOB.take 10, streamOB.drop 10]).2 = true ∧
    (runChunks CbData () [streamOB.take 10, streamOB.drop 10]).1.events = [] ∧
    (runChunks CbData () [streamOB.take 10, streamOB.drop 10]).1.buffer_position = 0 := by
  refine ⟨rfl, rfl, rfl, rfl, rfl, rfl⟩

/-! ### Lemmas about the dataset.rs machine -/

lemma headerAttrs_append (l m : List Event) :
    headerAttrs (l ++ m) = headerAttrs l ++ headerAttrs m :=
  List.filterMap_append l m _

lemma headerAttrs_header (a : Attribute) (c : Control) :
    headerAttrs [Event.header a c] = [a] := rfl

lemma headerAttrs_data (a : Attribute) (d : List Nat) :
    headerAttrs [Event.data a d] = [] := rfl

lemma mem_headerAttrs {a : Attribute} {evs : List Event} :
    a ∈ headerAttrs evs ↔ ∃ c, Event.header a c ∈ evs := by
  rw [headerAttrs, List.mem_filterMap]
  constructor
  · rintro ⟨e, he, hfe⟩
    cases e with
    | header b c =>
      simp only at hfe
      cases Option.some.inj hfe
      exact ⟨c, he⟩
    | data b d => exact absurd hfe (by simp)
  · rintro ⟨c, hc⟩
    exact ⟨Event.header a c, hc, rfl⟩

lemma decAt_append (e : List Nat) {buf : List Nat} {a : Attribute} (h : DecAt buf a) :
    DecAt (buf ++ e) a := by
  obtain ⟨p, k, hele, hdp⟩ := h
  have hb := ele_bounds hele
  have h8 : 8 ≤ (buf.drop p).length := le_trans hb.1 hb.2
  have hp : p ≤ buf.length := by
    rw [List.length_drop] at h8
    omega
  exact ⟨p, k, by rw [List.drop_append_of_le_length hp]; exact ele_append hele, hdp⟩

lemma inv_new (s0 : σ) : Inv (Parser.new s0) := by
  refine ⟨rfl, le_refl 0, ?_, ?_, ?_, ?_, ?_, ?_, ?_, ?_, ?_⟩
  · intro e he
    exact absurd he (List.not_mem_nil e)
  · intro a ha
    exact absurd ha (by simp [Parser.new])
  · intro h
    exact absurd h (by simp [Parser.new])
  · intro a _ ha
    exact absurd ha (by simp [Parser.new])
  · intro a hH
    exact absurd hH (List.not_mem_nil _)
  · intro a c hH
    exact absurd hH (List.not_mem_nil _)
  · exact List.Pairwise.nil
  · intro e he
    exact absurd he (List.not_mem_nil e)
  · intro a ha
    exact absurd ha (by simp [Parser.new])

lemma inv_headerPhase (C : Callback σ) (st : Parser σ) (hI : Inv st)
    (h0 : st.element_data_bytes_remaining = 0) :
    Inv (headerPhase C st).toState := by
  rw [headerPhase]
  by_cases hge : st.buffer.length - st.buffer_position ≥ 10
  · rw [if_pos hge]
    cases hE : Attribute.ele (st.buffer.drop st.buffer_position) with
    | none => exact hI
    | some attr0 =>
      dsimp only [StepOut.toState]
      have hb := ele_bounds hE
      have h8 : 8 ≤ attr0.data_position := hb.1
      have hdple : attr0.data_position ≤ st.buffer.length - st.buffer_position := by
        have := hb.2
        rw [List.length_drop] at this
        exact this
      have hfresh : ∀ e ∈ st.events,
          (Event.attr e).data_position < st.data_position + attr0.data_position := by
        intro e he
        have := hI.evdp e he
        omega
      refine ⟨?_, ?_, ?_, ?_, ?_, ?_, ?_, ?_, ?_, ?_, ?_⟩
      · dsimp only
        rw [hI.bpdp]
      · dsimp only
        have := hI.bple
        omega
      · dsimp only
        intro e he
        rcases List.mem_append.mp he with hold | hnew
        · exact le_of_lt (hfresh e hold)
        · rw [List.mem_singleton.mp hnew]
          exact le_refl _
      · dsimp only
        intro b hb'
        cases Option.some.inj hb'
        exact le_refl _
      · dsimp only
        intro _
        exact rfl
      · dsimp only
        intro b hsd hb' hmem
        cases Option.some.inj hb'
        rcases List.mem_append.mp hmem with hold | hnew
        · have := hfresh _ hold
          simp only [Event.attr] at this
          omega
        · have h1 := List.mem_singleton.mp hnew
          injection h1 with hba hcc
          rw [← hcc] at hsd
          exact absurd hsd (by simp)
      · dsimp only
        intro b hH d hD
        rcases List.mem_append.mp hH with hHo | hHn
        · rcases List.mem_append.mp hD with hDo | hDn
          · exact hI.elemNoData b hHo d hDo
          · have := List.mem_singleton.mp hDn
            cases this
        · rcases List.mem_append.mp hD with hDo | hDn
          · have h1 := List.mem_singleton.mp hHn
            injection h1 with hba _
            subst hba
            have := hfresh _ hDo
            simp only [Event.attr] at this
            omega
          · have := List.mem_singleton.mp hDn
            cases this
      · dsimp only
        intro b c hb'
        rcases List.mem_append.mp hb' with hold | hnew
        · have := hI.hdrBound b c hold
          rw [h0] at this
          omega
        · have h1 := List.mem_singleton.mp hnew
          injection h1 with hba _
          subst hba
          exact le_refl _
      · dsimp only
        rw [headerAttrs_append, headerAttrs_header]
        rw [List.pairwise_append]
        refine ⟨hI.hdrPair, List.pairwise_singleton _ _, ?_⟩
        intro x hx y hy
        rw [List.mem_singleton.mp hy]
        obtain ⟨c, hc⟩ := mem_headerAttrs.mp hx
        have := hI.hdrBound x c hc
        rw [h0] at this
        rw [beforePayload]
        dsimp only
        omega
      · dsimp only
        intro e he
        rcases List.mem_append.mp he with hold | hnew
        · exact hI.decode e hold
        · rw [List.mem_singleton.mp hnew]
          refine ⟨st.buffer_position, attr0.data_position, ?_, ?_⟩
          · dsimp only [Event.attr]
            rw [hE]
          · dsimp only [Event.attr]
            rw [hI.bpdp]
      · dsimp only
        intro b hb'
        rw [← Option.some.inj hb']
        refine ⟨st.buffer_position, attr0.data_position, ?_, ?_⟩
        · dsimp only
          rw [hE]
        · dsimp only
          rw [hI.bpdp]
  · rw [if_neg hge]
    exact hI

lemma inv_stepBody (C : Callback σ) {st : Parser σ} (hI : Inv st) :
    Inv (stepBody C st).toState := by
  rw [stepBody]
  by_cases hpos : st.element_data_bytes_remaining > 0
  · rw [if_pos hpos]
    by_cases hav : st.buffer.length - st.buffer_position ≥ st.element_data_bytes_remaining
    · rw [if_pos hav]
      cases hs : st.state with
      | data =>
        cases hA : st.attr with
        | none =>
          dsimp only
          exact hI
        | some a =>
          dsimp only
          apply inv_headerPhase C ({ st with
            cb := C.data st.cb a
              ((st.buffer.drop st.buffer_position).take st.element_data_bytes_remaining),
            state := .element,
            attr := some a,
            events := st.events ++
              [.data a ((st.buffer.drop st.buffer_position).take st.element_data_bytes_remaining)],
            buffer_position := st.buffer_position + st.element_data_bytes_remaining,
            data_position := st.data_position + st.element_data_bytes_remaining,
            element_data_bytes_remaining := 0 }) ?_ rfl
          refine ⟨?_, ?_, ?_, ?_, ?_, ?_, ?_, ?_, ?_, ?_, ?_⟩
          · dsimp only
            rw [hI.bpdp]
          · dsimp only
            have := hI.bple
            omega
          · dsimp only
            intro e he
            rcases List.mem_append.mp he with hold | hnew
            · have := hI.evdp e hold
              omega
            · rw [List.mem_singleton.mp hnew]
              have := hI.attdp a hA
              simp only [Event.attr]
              omega
          · dsimp only
            intro b hb'
            cases Option.some.inj hb'
            have := hI.attdp a hA
            omega
          · dsimp only
            intro h
            exact absurd h (by simp)
          · dsimp only
            intro b h
            exact absurd h (by simp)
          · dsimp only
            intro b hH d hD
            rcases List.mem_append.mp hH with hHo | hHn
            · rcases List.mem_append.mp hD with hDo | hDn
              · exact hI.elemNoData b hHo d hDo
              · have h1 := List.mem_singleton.mp hDn
                injection h1 with hba _
                subst hba
                exact hI.noElemHdr b hs hA hHo
            · have := List.mem_singleton.mp hHn
              cases this
          · dsimp only
            intro b c hb'
            rcases List.mem_append.mp hb' with hold | hnew
            · have := hI.hdrBound b c hold
              omega
            · have := List.mem_singleton.mp hnew
              cases this
          · dsimp only
            rw [headerAttrs_append, headerAttrs_data, List.append_nil]
            exact hI.hdrPair
          · dsimp only
            intro e he
            rcases List.mem_append.mp he with hold | hnew
            · exact hI.decode e hold
            · rw [List.mem_singleton.mp hnew]
              exact hI.attdec a hA
          · dsimp only
            intro b hb'
            cases Option.some.inj hb'
            exact hI.attdec a hA
      | element =>
        dsimp only
        apply inv_headerPhase C ({ st with
          state := .element,
          buffer_position := st.buffer_position + st.element_data_bytes_remaining,
          data_position := st.data_position + st.element_data_bytes_remaining,
          element_data_bytes_remaining := 0 }) ?_ rfl
        refine ⟨?_, ?_, ?_, ?_, ?_, ?_, ?_, ?_, ?_, ?_, ?_⟩
        · dsimp only
          rw [hI.bpdp]
        · dsimp only
          have := hI.bple
          omega
        · dsimp only
          intro e he
          have := hI.evdp e he
          omega
        · dsimp only
          intro b hb'
          have := hI.attdp b hb'
          omega
        · dsimp only
          intro h
          exact absurd h (by simp)
        · dsimp only
          intro b hcon
          exact absurd hcon (by simp)
        · dsimp only
          exact hI.elemNoData
        · dsimp only
          intro b c hb'
          have := hI.hdrBound b c hb'
          omega
        · dsimp only
          exact hI.hdrPair
        · dsimp only
          exact hI.decode
        · dsimp only
          exact hI.attdec
      | stop =>
        dsimp only
        apply inv_headerPhase C ({ st with
          state := .stop,
          buffer_position := st.buffer_position + st.element_data_bytes_remaining,
          data_position := st.data_position + st.element_data_bytes_remaining,
          element_data_bytes_remaining := 0 }) ?_ rfl
        refine ⟨?_, ?_, ?_, ?_, ?_, ?_, ?_, ?_, ?_, ?_, ?_⟩
        · dsimp only
          rw [hI.bpdp]
        · dsimp only
          have := hI.bple
          omega
        · dsimp only
          intro e he
          have := hI.evdp e he
          omega
        · dsimp only
          intro b hb'
          have := hI.attdp b hb'
          omega
        · dsimp only
          intro h
          exact absurd h (by simp)
        · dsimp only
          intro b hcon
          exact absurd hcon (by simp)
        · dsimp only
          exact hI.elemNoData
        · dsimp only
          intro b c hb'
          have := hI.hdrBound b c hb'
          omega
        · dsimp only
          exact hI.hdrPair
        · dsimp only
          exact hI.decode
        · dsimp only
          exact hI.attdec
    · rw [if_neg hav]
      exact hI
  · rw [if_neg hpos]
    exact inv_headerPhase C st hI (by omega)

lemma inv_runLoop (C : Callback σ) (fuel : Nat) {st : Parser σ} (hI : Inv st) :
    Inv (runLoop C fuel st).1 := by
  induction fuel generalizing st with
  | zero => exact hI
  | succ n ih =>
    rw [runLoop]
    by_cases hs : st.state = .stop
    · rw [if_pos hs]
      exact hI
    · rw [if_neg hs]
      cases hS : stepBody C st with
      | ret st' =>
        have := inv_stepBody C hI
        rw [hS] at this
        exact this
      | panic st' =>
        have := inv_stepBody C hI
        rw [hS] at this
        exact this
      | cont st' =>
        apply ih
        have := inv_stepBody C hI
        rw [hS] at this
        exact this

lemma inv_append (bytes : List Nat) {st : Parser σ} (hI : Inv st) :
    Inv { st with buffer := st.buffer ++ bytes } := by
  refine ⟨hI.bpdp, ?_, hI.evdp, hI.attdp, hI.dataAttr, hI.noElemHdr, hI.elemNoData,
    hI.hdrBound, hI.hdrPair, ?_, ?_⟩
  · dsimp only
    rw [List.length_append]
    have := hI.bple
    omega
  · intro e he
    exact decAt_append bytes (hI.decode e he)
  · intro a ha
    exact decAt_append bytes (hI.attdec a ha)

lemma inv_parse (C : Callback σ) {st : Parser σ} (hI : Inv st) (bytes : List Nat) :
    Inv (Parser.parse C st bytes).1 :=
  inv_runLoop C _ (inv_append bytes hI)

lemma inv_feedAll (C : Callback σ) :
    ∀ (cs : List (List Nat)) {st : Parser σ}, Inv st → Inv (feedAll C st cs).1 := by
  intro cs
  induction cs with
  | nil =>
    intro st hI
    exact hI
  | cons c cs ih =>
    intro st hI
    rw [feedAll]
    cases hP : Parser.parse C st c with
    | mk st' b =>
      have hI' : Inv st' := by
        have := inv_parse C hI c
        rw [hP] at this
        exact this
      cases b with
      | false => exact ih hI'
      | true => exact hI'

lemma inv_runChunks (C : Callback σ) (s0 : σ) (chunks : List (List Nat)) :
    Inv (runChunks C s0 chunks).1 :=
  inv_feedAll C chunks (inv_new s0)

lemma headerPhase_buffer (C : Callback σ) (st : Parser σ) :
    (headerPhase C st).toState.buffer = st.buffer := by
  rw [headerPhase]
  by_cases hge : st.buffer.length - st.buffer_position ≥ 10
  · rw [if_pos hge]
    cases Attribute.ele (st.buffer.drop st.buffer_position) with
    | none => rfl
    | some attr0 => rfl
  · rw [if_neg hge]
    rfl

lemma stepBody_buffer (C : Callback σ) (st : Parser σ) :
    (stepBody C st).toState.buffer = st.buffer := by
  rw [stepBody]
  by_cases hpos : st.element_data_bytes_remaining > 0
  · rw [if_pos hpos]
    by_cases hav : st.buffer.length - st.buffer_position ≥ st.element_data_bytes_remaining
    · rw [if_pos hav]
      cases hs : st.state with
      | data =>
        cases hA : st.attr with
        | none => rfl
        | some a =>
          dsimp only
          exact headerPhase_buffer C _
      | element =>
        dsimp only
        exact headerPhase_buffer C _
      | stop =>
        dsimp only
        exact headerPhase_buffer C _
    · rw [if_neg hav]
      rfl
  · rw [if_neg hpos]
    exact headerPhase_buffer C st

lemma runLoop_buffer (C : Callback σ) (fuel : Nat) (st : Parser σ) :
    (runLoop C fuel st).1.buffer = st.buffer := by
  induction fuel generalizing st with
  | zero => rfl
  | succ n ih =>
    rw [runLoop]
    by_cases hs : st.state = .stop
    · rw [if_pos hs]
    · rw [if_neg hs]
      cases hS : stepBody C st with
      | ret st' =>
        have := stepBody_buffer C st
        rw [hS] at this
        exact this
      | panic st' =>
        have := stepBody_buffer C st
        rw [hS] at this
        exact this
      | cont st' =>
        rw [ih st']
        have := stepBody_buffer C st
        rw [hS] at this
        exact this

lemma parse_buffer (C : Callback σ) (st : Parser σ) (bytes : List Nat) :
    (Parser.parse C st bytes).1.buffer = st.buffer ++ bytes := by
  rw [Parser.parse]
  exact runLoop_buffer C _ _

lemma feedAll_stream (C : Callback σ) :
    ∀ (cs : List (List Nat)) (st : Parser σ),
      ∃ rest, (feedAll C st cs).1.buffer ++ rest = st.buffer ++ cs.flatten := by
  intro cs
  induction cs with
  | nil =>
    intro st
    exact ⟨[], by simp [feedAll]⟩
  | cons c cs ih =>
    intro st
    rw [feedAll]
    cases hP : Parser.parse C st c with
    | mk st' b =>
      have hb : st'.buffer = st.buffer ++ c := by
        have := parse_buffer C st c
        rw [hP] at this
        exact this
      cases b with
      | false =>
        obtain ⟨rest, hr⟩ := ih st'
        refine ⟨rest, ?_⟩
        rw [hr, hb]
        simp [List.append_assoc]
      | true =>
        refine ⟨cs.flatten, ?_⟩
        dsimp only
        rw [hb]
        simp [List.append_assoc]

/-! ### Claim theorems, part 2: the dataset.rs machine -/

/-- Claim C7 (confirmed): for every partition of the input into chunks and
every callback, an attribute whose header callback answered Element never
receives a data callback for its payload, in that parse call or any later
one; and the payload bytes are consumed: every later header event starts at
or past the end of the attribute's payload (`beforePayload`, i.e. the
position counters advanced past the full payload before any further record
was decoded). -/
theorem claimC7_element_skip (chunks : List (List Nat)) (C : Callback σ) (s0 : σ) :
    (∀ a, Event.header a .element ∈ (runChunks C s0 chunks).1.events →
      ∀ d, Event.data a d ∉ (runChunks C s0 chunks).1.events) ∧
    List.Pairwise beforePayload (headerAttrs (runChunks C s0 chunks).1.events) :=
  ⟨(inv_runChunks C s0 chunks).elemNoData, (inv_runChunks C s0 chunks).hdrPair⟩

/-- Witness for C7: a skip-everything callback on the one-attribute stream
`streamOB` produces the Element header event, and no data callback for that
attribute's payload ever occurs. -/
theorem claimC7_witness :
    Event.header attrOB .element ∈ (runChunks CbElem () [streamOB]).1.events ∧
    Event.data attrOB [0, 1] ∉ (runChunks CbElem () [streamOB]).1.events :=
  ⟨by decide, (claimC7_element_skip [streamOB] CbElem ()).1 attrOB (by decide) [0, 1]⟩

/-- Claim C8 (confirmed): every attribute handed to a callback by the
dataset.rs machine has `data_position` equal to the absolute byte offset in
the logical stream (the concatenation of all chunks, however the stream was
partitioned) at which its payload begins: its header decodes by
`Attribute.ele` at absolute offset `p` of the stream with header length `k`,
and `data_position = p + k`. -/
theorem claimC8_data_position (chunks : List (List Nat)) (C : Callback σ) (s0 : σ) :
    ∀ e ∈ (runChunks C s0 chunks).1.events,
      ∃ p k, Attribute.ele (chunks.flatten.drop p) =
          some ⟨(Event.attr e).tag, (Event.attr e).vr, (Event.attr e).length, k⟩ ∧
        (Event.attr e).data_position = p + k := by
  intro e he
  have hD := (inv_runChunks C s0 chunks).decode e he
  obtain ⟨rest, hr⟩ := feedAll_stream C chunks (Parser.new s0)
  have hjoin : (runChunks C s0 chunks).1.buffer ++ rest = chunks.flatten := by
    rw [runChunks]
    rw [hr]
    rfl
  have hfin := decAt_append rest hD
  rw [hjoin] at hfin
  exact hfin

/-- Witness for C8: in the single-chunk run over `streamOB`, the delivered
header attribute (payload offset 12) decodes at stream offset 0 with header
length 12. -/
theorem claimC8_witness :
    ∃ p k, Attribute.ele ((List.flatten [streamOB]).drop p) =
        some ⟨attrOB.tag, attrOB.vr, attrOB.length, k⟩ ∧
      attrOB.data_position = p + k :=
  claimC8_data_position [streamOB] CbData () (.header attrOB .data) (by decide)

/-! ### Lemmas about the DataSetParser driver -/

lemma driveLoop_zero (H : Handler σ) (d : DataSetParser) (s : σ)
    (rem : List Nat) (acc : Nat) : driveLoop H 0 d s rem acc = none := rfl

lemma driveLoop_nil (H : Handler σ) (fuel : Nat) (d : DataSetParser) (s : σ) (acc : Nat) :
    driveLoop H (fuel + 1) d s [] acc = some ([], .ok d s (ParseResult.completed acc)) := rfl

lemma driveLoop_succ (H : Handler σ) (fuel : Nat) (d : DataSetParser) (s : σ)
    (x : Nat) (xs : List Nat) (acc : Nat) :
    driveLoop H (fuel + 1) d s (x :: xs) acc =
      match d.parser with
      | none => some ([], .err s)
      | some p =>
        match SubParser.parse H p s (x :: xs) with
        | (s1, res, ev) =>
          match res.state with
          | .cancelled =>
            some (ev, .ok ⟨none, d.total_bytes_consumed + res.bytes_consumed⟩ s1
              (ParseResult.cancelled (acc + res.bytes_consumed)))
          | .incomplete =>
            some (ev, .ok ⟨d.parser, d.total_bytes_consumed + res.bytes_consumed⟩ s1
              (ParseResult.incomplete (acc + res.bytes_consumed)))
          | .partialRes =>
            match driveLoop H fuel ⟨res.parser, d.total_bytes_consumed + res.bytes_consumed⟩
                s1 ((x :: xs).drop res.bytes_consumed) (acc + res.bytes_consumed) with
            | some (ev2, out) => some (ev ++ ev2, out)
            | none => none
          | .completed =>
            match driveLoop H fuel
                ⟨some .attributeParser, d.total_bytes_consumed + res.bytes_consumed⟩
                s1 ((x :: xs).drop res.bytes_consumed) (acc + res.bytes_consumed) with
            | some (ev2, out) => some (ev ++ ev2, out)
            | none => none := rfl

/-- A sub-parser result in state Partial always carries a continuation. -/
lemma subparse_partial_cont (H : Handler σ) (p : SubParser) (s : σ) (w : List Nat) :
    (SubParser.parse H p s w).2.1.state = .partialRes →
      ∃ q, (SubParser.parse H p s w).2.1.parser = some q := by
  cases p <;> simp only [SubParser.parse] <;> repeat' split
  all_goals intro hst
  all_goals
    first
      | exact ⟨_, rfl⟩
      | simp [ParseResult.incomplete, ParseResult.cancelled, ParseResult.completed,
          ParseResult.partialRes] at hst

/-- The driver's protocol-misuse error: with no sub-parser and a non-empty
input, parse fails immediately with Err, no callback, nothing consumed. -/
lemma parse_none_err (H : Handler σ) (d : DataSetParser) (s : σ) (bytes : List Nat)
    (hp : d.parser = none) (hb : bytes ≠ []) :
    DataSetParser.parse H d s bytes = some ([], .err s) := by
  cases bytes with
  | nil => exact absurd rfl hb
  | cons x xs =>
    rw [DataSetParser.parse]
    rw [show 2 * (x :: xs).length + 2 = (2 * (x :: xs).length + 1) + 1 from rfl]
    rw [driveLoop_succ, hp]

/-- An Err result from the drive loop can only come from its very first
iteration: the input was non-empty, no sub-parser was installed, no handler
callback was made, and the handler state is untouched. -/
lemma err_inv (H : Handler σ) :
    ∀ (fuel : Nat) (d : DataSetParser) (s : σ) (rem : List Nat) (acc : Nat)
      (ev : List Event) (s' : σ),
      driveLoop H fuel d s rem acc = some (ev, .err s') →
      rem ≠ [] ∧ d.parser = none ∧ ev = [] ∧ s' = s := by
  intro fuel
  induction fuel with
  | zero =>
    intro d s rem acc ev s' h
    exact absurd h (by rw [driveLoop_zero]; simp)
  | succ n ih =>
    intro d s rem acc ev s' h
    cases rem with
    | nil =>
      rw [driveLoop_nil] at h
      simp at h
    | cons x xs =>
      rw [driveLoop_succ] at h
      cases hp : d.parser with
      | none =>
        rw [hp] at h
        simp only [Option.some.injEq, Prod.mk.injEq, DriveOut.err.injEq] at h
        exact ⟨by simp, rfl, h.1.symm, h.2.symm⟩
      | some p =>
        rw [hp] at h
        dsimp only at h
        cases hrun : SubParser.parse H p s (x :: xs) with
        | mk s1 rest =>
        cases rest with
        | mk res ev0 =>
        rw [hrun] at h
        cases res with
        | mk n2 stt cont =>
        cases stt with
        | cancelled => simp at h
        | incomplete => simp at h
        | partialRes =>
          simp only at h
          cases hrec : driveLoop H n ⟨cont, d.total_bytes_consumed + n2⟩ s1
              ((x :: xs).drop n2) (acc + n2) with
          | none => rw [hrec] at h; simp at h
          | some pr =>
            cases pr with
            | mk ev2 out =>
              rw [hrec] at h
              simp only [Option.some.injEq, Prod.mk.injEq] at h
              have hout : out = DriveOut.err s' := h.2
              rw [hout] at hrec
              have hnone := (ih _ _ _ _ _ _ hrec).2.1
              have hpart := subparse_partial_cont H p s (x :: xs)
              rw [hrun] at hpart
              obtain ⟨q, hq⟩ := hpart rfl
              simp only at hq
              simp only at hnone
              rw [hnone] at hq
              cases hq
        | completed =>
          simp only at h
          cases hrec : driveLoop H n ⟨some .attributeParser, d.total_bytes_consumed + n2⟩ s1
              ((x :: xs).drop n2) (acc + n2) with
          | none => rw [hrec] at h; simp at h
          | some pr =>
            cases pr with
            | mk ev2 out =>
              rw [hrec] at h
              simp only [Option.some.injEq, Prod.mk.injEq] at h
              have hout : out = DriveOut.err s' := h.2
              rw [hout] at hrec
              have hnone := (ih _ _ _ _ _ _ hrec).2.1
              simp at hnone

/-- A successful drive-loop result in state Cancelled leaves no sub-parser
installed. -/
lemma cancel_parser_none (H : Handler σ) :
    ∀ (fuel : Nat) (d : DataSetParser) (s : σ) (rem : List Nat) (acc : Nat)
      (ev : List Event) (d' : DataSetParser) (s' : σ) (r : ParseResult),
      driveLoop H fuel d s rem acc = some (ev, .ok d' s' r) →
      r.state = .cancelled → d'.parser = none := by
  intro fuel
  induction fuel with
  | zero =>
    intro d s rem acc ev d' s' r h
    exact absurd h (by rw [driveLoop_zero]; simp)
  | succ n ih =>
    intro d s rem acc ev d' s' r h hst
    cases rem with
    | nil =>
      rw [driveLoop_nil] at h
      simp only [Option.some.injEq, Prod.mk.injEq, DriveOut.ok.injEq] at h
      rw [← h.2.2.2] at hst
      exact absurd hst (by simp [ParseResult.completed])
    | cons x xs =>
      rw [driveLoop_succ] at h
      cases hp : d.parser with
      | none =>
        rw [hp] at h
        simp at h
      | some p =>
        rw [hp] at h
        dsimp only at h
        cases hrun : SubParser.parse H p s (x :: xs) with
        | mk s1 rest =>
        cases rest with
        | mk res ev0 =>
        rw [hrun] at h
        cases res with
        | mk n2 stt cont =>
        cases stt with
        | cancelled =>
          simp only [Option.some.injEq, Prod.mk.injEq, DriveOut.ok.injEq] at h
          rw [← h.2.1]
        | incomplete =>
          simp only [Option.some.injEq, Prod.mk.injEq, DriveOut.ok.injEq] at h
          rw [← h.2.2.2] at hst
          exact absurd hst (by simp [ParseResult.incomplete])
        | partialRes =>
          simp only at h
          cases hrec : driveLoop H n ⟨cont, d.total_bytes_consumed + n2⟩ s1
              ((x :: xs).drop n2) (acc + n2) with
          | none => rw [hrec] at h; simp at h
          | some pr =>
            cases pr with
            | mk ev2 out =>
              rw [hrec] at h
              simp only [Option.some.injEq, Prod.mk.injEq] at h
              have hout : out = DriveOut.ok d' s' r := h.2
              rw [hout] at hrec
              exact ih _ _ _ _ _ _ _ _ hrec hst
        | completed =>
          simp only at h
          cases hrec : driveLoop H n ⟨some .attributeParser, d.total_bytes_consumed + n2⟩ s1
              ((x :: xs).drop n2) (acc + n2) with
          | none => rw [hrec] at h; simp at h
          | some pr =>
            cases pr with
            | mk ev2 out =>
              rw [hrec] at h
              simp only [Option.some.injEq, Prod.mk.injEq] at h
              have hout : out = DriveOut.ok d' s' r := h.2
              rw [hout] at hrec
              exact ih _ _ _ _ _ _ _ _ hrec hst

/-! ### Claim theorems, part 3: the DataSetParser driver -/

/-- Claim C6 (confirmed): within one DataSetParser::parse call over a
non-empty chunk, when the current sub-parser returns Partial the driver
installs the returned continuation and keeps looping over the remaining
bytes of the same call; when it returns Completed the driver installs a
freshly constructed attribute-header parser and keeps looping; when it
returns Incomplete the driver stops looping, keeps the same sub-parser
current, and returns the accumulated bytes consumed with state Incomplete. -/
theorem claimC6_transitions (H : Handler σ) (fuel : Nat) (d : DataSetParser) (s : σ)
    (rem : List Nat) (acc : Nat) (p : SubParser)
    (hp : d.parser = some p) (hrem : rem ≠ []) :
    (∀ s1 n q ev, SubParser.parse H p s rem = (s1, ParseResult.partialRes n q, ev) →
      driveLoop H (fuel + 1) d s rem acc =
        match driveLoop H fuel ⟨some q, d.total_bytes_consumed + n⟩ s1
            (rem.drop n) (acc + n) with
        | some (ev2, out) => some (ev ++ ev2, out)
        | none => none) ∧
    (∀ s1 n ev, SubParser.parse H p s rem = (s1, ParseResult.completed n, ev) →
      driveLoop H (fuel + 1) d s rem acc =
        match driveLoop H fuel ⟨some .attributeParser, d.total_bytes_consumed + n⟩ s1
            (rem.drop n) (acc + n) with
        | some (ev2, out) => some (ev ++ ev2, out)
        | none => none) ∧
    (∀ s1 n ev, SubParser.parse H p s rem = (s1, ParseResult.incomplete n, ev) →
      driveLoop H (fuel + 1) d s rem acc =
        some (ev, .ok ⟨some p, d.total_bytes_consumed + n⟩ s1
          (ParseResult.incomplete (acc + n)))) := by
  cases rem with
  | nil => exact absurd rfl hrem
  | cons x xs =>
    refine ⟨?_, ?_, ?_⟩
    · intro s1 n q ev hrun
      rw [driveLoop_succ, hp]
      dsimp only
      rw [hrun]
      rfl
    · intro s1 n ev hrun
      rw [driveLoop_succ, hp]
      dsimp only
      rw [hrun]
      rfl
    · intro s1 n ev hrun
      rw [driveLoop_succ, hp]
      dsimp only
      rw [hrun]
      rfl

/-- Witness for C6: a fresh driver over the 3-byte chunk [1,2,3] — the
attribute-header sub-parser reports Incomplete consuming nothing, and the
driver returns Incomplete with the same sub-parser still installed. -/
theorem claimC6_witness :
    SubParser.parse HData .attributeParser () [1, 2, 3] =
      ((), ParseResult.incomplete 0, []) ∧
    driveLoop HData 8 DataSetParser.default () [1, 2, 3] 0 =
      some ([], .ok ⟨some .attributeParser, 0⟩ () (ParseResult.incomplete 0)) :=
  ⟨rfl,
   ((claimC6_transitions HData 7 DataSetParser.default () [1, 2, 3] 0 .attributeParser
      rfl (by decide)).2.2 () 0 [] rfl).trans (by decide)⟩

/-- Claim C4 counterexample: the claim says every subsequent parse call after
a Cancelled result fails with the protocol-misuse error.  Here a call returns
Cancelled (dropping the sub-parser), yet a subsequent call with an empty byte
slice returns Ok(Completed, 0) instead of Err. -/
theorem claimC4_counterexample :
    DataSetParser.parse HStop DataSetParser.default () streamAE =
      some ([.header attrAE .stop], .ok ⟨none, 8⟩ () (ParseResult.cancelled 8)) ∧
    DataSetParser.parse HStop ⟨none, 8⟩ () [] =
      some ([], .ok ⟨none, 8⟩ () (ParseResult.completed 0)) :=
  ⟨rfl, rfl⟩

/-- Claim C4 as amended (proved): once a call returns Cancelled the driver has
dropped its sub-parser; cancellation is immediate (the driver returns right
when the sub-parser cancels, with exactly that sub-parser call's callbacks
and bytes); and every subsequent parse call with a NON-EMPTY input fails with
the protocol-misuse error Err, with no callback, no handler-state change and
no bytes parsed — while a subsequent call with an empty input returns
Ok(Completed, 0) (see the counterexample). -/
theorem claimC4_amended (H : Handler σ) :
    (∀ d s bytes ev d' s' r, DataSetParser.parse H d s bytes = some (ev, .ok d' s' r) →
      r.state = .cancelled → d'.parser = none) ∧
    (∀ fuel d s rem acc p s1 n ev, d.parser = some p → rem ≠ [] →
      SubParser.parse H p s rem = (s1, ParseResult.cancelled n, ev) →
      driveLoop H (fuel + 1) d s rem acc =
        some (ev, .ok ⟨none, d.total_bytes_consumed + n⟩ s1
          (ParseResult.cancelled (acc + n)))) ∧
    (∀ d s bytes, d.parser = none → bytes ≠ [] →
      DataSetParser.parse H d s bytes = some ([], .err s)) := by
  refine ⟨?_, ?_, ?_⟩
  · intro d s bytes ev d' s' r h hst
    exact cancel_parser_none H _ _ _ _ _ _ _ _ _ h hst
  · intro fuel d s rem acc p s1 n ev hp hrem hrun
    cases rem with
    | nil => exact absurd rfl hrem
    | cons x xs =>
      rw [driveLoop_succ, hp]
      dsimp only
      rw [hrun]
      rfl
  · intro d s bytes hp hb
    exact parse_none_err H d s bytes hp hb

/-- Witness for C4: from the concrete post-cancellation state, a non-empty
call fails with the protocol-misuse error. -/
theorem claimC4_witness :
    DataSetParser.parse HStop ⟨none, 8⟩ () [1, 2, 3] = some ([], .err ()) :=
  (claimC4_amended HStop).2.2 ⟨none, 8⟩ () [1, 2, 3] rfl (by decide)

/-- Claim C5 (confirmed): parse_full drives a fresh DataSetParser once and
maps its result: Cancelled to success with the bytes consumed and the
cancellation flag true; Incomplete and Partial to the truncated-input
ParseError; Completed to success with the cancellation flag false; and a
sub-parser error to ParseError. -/
theorem claimC5_mapping (H : Handler σ) (s : σ) (bytes : List Nat) :
    (∀ ev d' s' r,
      DataSetParser.parse H DataSetParser.default s bytes = some (ev, .ok d' s' r) →
      ((r.state = .cancelled →
          parse_full H s bytes = some (ev, .ok (r.bytes_consumed, true), s')) ∧
       (r.state = .incomplete → parse_full H s bytes = some (ev, .error ⟨⟩, s')) ∧
       (r.state = .partialRes → parse_full H s bytes = some (ev, .error ⟨⟩, s')) ∧
       (r.state = .completed →
          parse_full H s bytes = some (ev, .ok (r.bytes_consumed, false), s')))) ∧
    (∀ ev s', DataSetParser.parse H DataSetParser.default s bytes = some (ev, .err s') →
      parse_full H s bytes = some (ev, .error ⟨⟩, s')) := by
  constructor
  · intro ev d' s' r h
    refine ⟨?_, ?_, ?_, ?_⟩ <;> intro hst <;> rw [parse_full, h] <;> dsimp only <;>
      rw [hst]
  · intro ev s' h
    rw [parse_full, h]

/-- Witness for C5: the Stop handler on the one-attribute stream `streamAE`
produces a Cancelled drive result, which parse_full maps to Ok((8, true)). -/
theorem claimC5_witness :
    DataSetParser.parse HStop DataSetParser.default () streamAE =
      some ([.header attrAE .stop], .ok ⟨none, 8⟩ () (ParseResult.cancelled 8)) ∧
    parse_full HStop () streamAE = some ([.header attrAE .stop], .ok (8, true), ()) :=
  ⟨rfl,
   ((claimC5_mapping HStop () streamAE).1 [.header attrAE .stop] ⟨none, 8⟩ ()
      (ParseResult.cancelled 8) rfl).1 rfl⟩

/-- Claim C10 (confirmed): for every DataSetParser state — including the
post-cancellation state with no sub-parser — a parse call with an empty byte
slice returns Ok with state Completed and 0 bytes consumed, invoking no
Handler callback and leaving driver and handler state untouched; and the
protocol-misuse error Err(()) arises exactly when the input is non-empty and
no sub-parser is present. -/
theorem claimC10_empty_bypass (H : Handler σ) :
    (∀ d s, DataSetParser.parse H d s [] =
      some ([], .ok d s (ParseResult.completed 0))) ∧
    (∀ d s bytes ev s', DataSetParser.parse H d s bytes = some (ev, .err s') →
      bytes ≠ [] ∧ d.parser = none ∧ ev = [] ∧ s' = s) ∧
    (∀ d s bytes, bytes ≠ [] → d.parser = none →
      DataSetParser.parse H d s bytes = some ([], .err s)) := by
  refine ⟨?_, ?_, ?_⟩
  · intro d s
    rfl
  · intro d s bytes ev s' h
    exact err_inv H _ _ _ _ _ _ _ h
  · intro d s bytes hb hp
    exact parse_none_err H d s bytes hp hb

/-- Witness for C10: the empty-input call on a post-cancellation state
returns Ok(Completed, 0), and a concrete Err result implies its input was
non-empty with no sub-parser installed, no events and the handler state
untouched. -/
theorem claimC10_witness :
    DataSetParser.parse HData ⟨none, 5⟩ () [] =
      some ([], .ok ⟨none, 5⟩ () (ParseResult.completed 0)) ∧
    ([7] ≠ ([] : List Nat) ∧ (⟨none, 5⟩ : DataSetParser).parser = none ∧
      ([] : List Event) = [] ∧ () = ()) :=
  ⟨(claimC10_empty_bypass HData).1 ⟨none, 5⟩ (),
   (claimC10_empty_bypass HData).2.1 ⟨none, 5⟩ () [7] [] () rfl⟩

end Dicom
